import Mathlib

/-!
Shallow embedding of the sudo logsrvd session-log storage core:
the local sink (logsrvd_local.c) and the journal sink (logsrvd_journal.c).
Pure functions model each C handler; filesystem writes become list appends,
fallible external calls become explicit boolean parameters.
-/

set_option maxHeartbeats 1000000
set_option maxRecDepth 16000

namespace LogSrvd

/-- Model of a C struct timespec value: seconds and nanoseconds. -/
structure TimeSpec where
  sec : Int
  nsec : Int
deriving DecidableEq, Repr

/-- Modelled from the spec: the helper update_elapsed_time (defined outside the
given sources) advances the cumulative elapsed time by a delay, with the
nanosecond field normalized modulo 1e9.  Both operands are normalized
timespecs (nsec in [0, 1e9)), so a single conditional carry suffices. -/
def update_elapsed_time (delta e : TimeSpec) : TimeSpec :=
  let s := e.sec + delta.sec
  let n := e.nsec + delta.nsec
  if n ≥ 1000000000 then ⟨s + 1, n - 1000000000⟩ else ⟨s, n⟩

/-- Boolean comparison modelling sudo_timespeccmp(a, b, >=):
compare seconds first, nanoseconds on a tie. -/
def ts_geb (a b : TimeSpec) : Bool :=
  if a.sec = b.sec then decide (a.nsec ≥ b.nsec) else decide (a.sec ≥ b.sec)

/-- Boolean comparison modelling sudo_timespeccmp(a, b, ==). -/
def ts_eqb (a b : TimeSpec) : Bool :=
  decide (a.sec = b.sec) && decide (a.nsec = b.nsec)

/-- Strict lexicographic order on timespecs (sudo_timespeccmp with <). -/
def tsLt (a b : TimeSpec) : Prop :=
  a.sec < b.sec ∨ (a.sec = b.sec ∧ a.nsec < b.nsec)

instance (a b : TimeSpec) : Decidable (tsLt a b) := by
  unfold tsLt
  infer_instance

/-- Decimal digits of a natural number, most significant first, as produced
by the printf %d family for a non-negative value. -/
def natDigits (n : Nat) : List Char :=
  if n < 10 then [Nat.digitChar n]
  else natDigits (n / 10) ++ [Nat.digitChar (n % 10)]
  termination_by n
  decreasing_by exact Nat.div_lt_self (by omega) (by omega)

/-- Signed decimal rendering of an Int, as printed by %lld. -/
def intDec (i : Int) : List Char :=
  if i < 0 then '-' :: natDigits i.natAbs else natDigits i.toNat

/-- Zero-padded 9-wide decimal rendering, as printed by %09d for a
value with at most nine digits. -/
def pad9 (n : Nat) : List Char :=
  List.replicate (9 - (natDigits n).length) '0' ++ natDigits n

/-- Timing-file line written by store_iobuf_local:
snprintf(tbuf, sizeof(tbuf), "%d %lld.%09d %zu\n", iofd, sec, nsec, datalen). -/
def timingLine (iofd : Nat) (delay : TimeSpec) (datalen : Nat) : List Char :=
  natDigits iofd ++ [' '] ++ intDec delay.sec ++ ['.'] ++ pad9 delay.nsec.toNat
    ++ [' '] ++ natDigits datalen ++ ['\n']

/-- Modelled from the spec: the protocol event-kind number for window-size
records (IO_EVENT_WINSIZE, declared outside the given sources). -/
def IO_EVENT_WINSIZE : Nat := 5

/-- Modelled from the spec: the protocol event-kind number for suspend
records (IO_EVENT_SUSPEND, declared outside the given sources). -/
def IO_EVENT_SUSPEND : Nat := 6

/-- Timing-file line written by store_winsize_local:
snprintf(tbuf, sizeof(tbuf), "%d %lld.%09d %d %d\n", ...). -/
def winsizeLine (delay : TimeSpec) (rows cols : Nat) : List Char :=
  natDigits IO_EVENT_WINSIZE ++ [' '] ++ intDec delay.sec ++ ['.']
    ++ pad9 delay.nsec.toNat ++ [' '] ++ natDigits rows ++ [' ']
    ++ natDigits cols ++ ['\n']

/-- Timing-file line written by store_suspend_local:
snprintf(tbuf, sizeof(tbuf), "%d %lld.%09d %s\n", ...). -/
def suspendLine (delay : TimeSpec) (signal : List Char) : List Char :=
  natDigits IO_EVENT_SUSPEND ++ [' '] ++ intDec delay.sec ++ ['.']
    ++ pad9 delay.nsec.toNat ++ [' '] ++ signal ++ ['\n']

/-- Local-sink portion of the connection closure: per-stream file contents
(indexed by the IOFD slot number), the timing file text, the cumulative
elapsed time and the errstr slot. -/
structure LState where
  streams : Nat → List Nat
  timing : List Char
  elapsed : TimeSpec
  errstr : Option String

/-- Initial local-sink state: empty files, zero elapsed time, no error. -/
def initLState : LState :=
  { streams := fun _ => [], timing := [], elapsed := ⟨0, 0⟩, errstr := none }

/-- Model of the pattern at the bad: labels of logsrvd_local.c:
set errstr only if it is not already set. -/
def set_errstr_default (st : LState) (s : String) : LState :=
  if st.errstr = none then { st with errstr := some s } else st

/-- Model of store_iobuf_local.  The iolog_create call is implicit (stream
contents default to empty), external write failures are the two boolean
parameters, and the arc4random sample divided by UINT32_MAX is the
rational randval parameter.  On success the data bytes are appended to the
stream file, one timing line is appended to the timing file and the elapsed
time is advanced; a sampled value below random_drop then makes the call
report failure without touching errstr. -/
def store_iobuf_local (iofd : Nat) (delay : TimeSpec) (data : List Nat)
    (streamWriteOk timingWriteOk : Bool) (random_drop randval : ℚ)
    (st : LState) : Bool × LState :=
  let line := timingLine iofd delay data.length
  if line.length ≥ 1024 then (false, set_errstr_default st "error writing IoBuffer")
  else if !streamWriteOk then (false, set_errstr_default st "error writing IoBuffer")
  else
    let st1 := { st with streams := Function.update st.streams iofd (st.streams iofd ++ data) }
    if !timingWriteOk then (false, set_errstr_default st1 "error writing IoBuffer")
    else
      let st2 := { st1 with timing := st1.timing ++ line,
                            elapsed := update_elapsed_time delay st1.elapsed }
      if 0 < random_drop ∧ randval < random_drop then (false, st2) else (true, st2)

/-- Model of store_winsize_local: append one winsize timing line and advance
the elapsed time. -/
def store_winsize_local (delay : TimeSpec) (rows cols : Nat)
    (timingWriteOk : Bool) (st : LState) : Bool × LState :=
  let line := winsizeLine delay rows cols
  if line.length ≥ 1024 then (false, set_errstr_default st "error writing ChangeWindowSize")
  else if !timingWriteOk then (false, set_errstr_default st "error writing ChangeWindowSize")
  else (true, { st with timing := st.timing ++ line,
                        elapsed := update_elapsed_time delay st.elapsed })

/-- Model of store_suspend_local: append one suspend timing line and advance
the elapsed time. -/
def store_suspend_local (delay : TimeSpec) (signal : List Char)
    (timingWriteOk : Bool) (st : LState) : Bool × LState :=
  let line := suspendLine delay signal
  if line.length ≥ 1024 then (false, set_errstr_default st "error writing CommandSuspend")
  else if !timingWriteOk then (false, set_errstr_default st "error writing CommandSuspend")
  else (true, { st with timing := st.timing ++ line,
                        elapsed := update_elapsed_time delay st.elapsed })

/-- Big-endian byte encoding of a 32-bit value, as produced by htonl
followed by fwrite of the four bytes. -/
def be32enc (n : Nat) : List Nat :=
  [n / 16777216 % 256, n / 65536 % 256, n / 256 % 256, n % 256]

/-- Big-endian byte decoding of four bytes into a 32-bit value, as read by
fread of a uint32_t followed by ntohl. -/
def be32dec (b0 b1 b2 b3 : Nat) : Nat :=
  ((b0 * 256 + b1) * 256 + b2) * 256 + b3

/-- Model of the open journal file handle: whether the handle holds the
advisory exclusive lock, and the file contents. -/
structure JFile where
  locked : Bool
  data : List Nat
deriving DecidableEq, Repr

/-- Model of journal_write: append a frame holding the 32-bit big-endian
message length (the size_t length truncated by the uint32_t cast) followed
by the raw message bytes. -/
def journal_write (buf : List Nat) (f : JFile) : JFile :=
  { f with data := f.data ++ be32enc (buf.length % 4294967296) ++ buf }

/-- Model of journal_create: journal_mkstemp yields a fresh empty file and
sudo_lock_file(fd, SUDO_TLOCK) acquires the advisory exclusive lock before
the handle is stored on the closure. -/
def journal_create_file : JFile := ⟨true, []⟩

/-- Model of the reopen step of journal_restart: open(journal_path, O_RDWR)
followed by journal_fdopen.  No sudo_lock_file call appears on this path,
so the reopened handle does not hold the advisory lock. -/
def journal_restart_reopen (d : List Nat) : JFile := ⟨false, d⟩

/-- Model of journal_finish as it affects the open handle: fflush, rewind
and the rename to the outgoing directory leave the contents and the lock
(which lives on the open handle) unchanged. -/
def journal_finish_file (f : JFile) : JFile := f

/-- An operation performed on an open journal file during a session. -/
inductive JOp where
  | write (buf : List Nat)
  | finish
deriving DecidableEq, Repr

/-- Apply one journal-file operation. -/
def applyJOp (f : JFile) : JOp → JFile
  | .write b => journal_write b f
  | .finish => journal_finish_file f

/-- Run a sequence of journal-file operations. -/
def runJOps (f : JFile) (ops : List JOp) : JFile := ops.foldl applyJOp f

/-- Contents of the finalized outgoing journal file for a session whose
raw wire messages are bufs: journal_accept creates the file and writes the
first frame, each later handler writes one frame, and journal_exit writes
the final frame and calls journal_finish. -/
def journal_run_session (bufs : List (List Nat)) : JFile :=
  journal_finish_file (bufs.foldl (fun f b => journal_write b f) journal_create_file)

/-- Reader for the journal binary schema, following the spec wording: split
the file into frames of a 4-byte big-endian length followed by that many
payload bytes, failing on any leftover or truncated frame. -/
def parseFrames : List Nat → Option (List (List Nat))
  | [] => some []
  | b0 :: b1 :: b2 :: b3 :: rest =>
    let n := be32dec b0 b1 b2 b3
    if n ≤ rest.length then
      match parseFrames (rest.drop n) with
      | some fs => some (rest.take n :: fs)
      | none => none
    else none
  | _ => none
  termination_by l => l.length
  decreasing_by simp [List.length_drop]; omega

/-- Errstr set by journal_seek on end of file. -/
def eofErr : String := "unexpected EOF reading journal file"

/-- Errstr set by journal_seek on an oversize length field. -/
def tooLargeErr : String := "client message too large"

/-- Errstr set by journal_seek on a decode failure or a resume-point
mismatch, and by journal_restart on other failures of the seek. -/
def invalidErr : String := "invalid journal file, unable to restart"

/-- Result of journal_seek: the returned boolean, the errstr slot of the
closure, and the cumulative elapsed time. -/
structure SeekRes where
  ok : Bool
  errstr : Option String
  elapsed : TimeSpec
deriving DecidableEq, Repr

/-- Advance the elapsed time by the optional delay of a decoded message,
modelling the guarded update_elapsed_time call in the journal_seek loop. -/
def bumpDelay (d : Option TimeSpec) (e : TimeSpec) : TimeSpec :=
  match d with
  | some dl => update_elapsed_time dl e
  | none => e

/-- One iteration of the journal_seek frame reader.  The decoder dec stands
for client_message__unpack: none is a decode failure, some d is a decoded
message whose optional delay field is d. -/
inductive FrameRes where
  | eof
  | tooLarge
  | badDecode
  | frame (d : Option TimeSpec) (rest : List Nat)

/-- Read one frame as the journal_seek loop body does: fewer than four bytes
is EOF; a length above the size bound fails before the payload is read; a
missing payload is EOF; then the payload is decoded. -/
def readFrame (dec : List Nat → Option (Option TimeSpec)) (message_size_max : Nat) :
    List Nat → FrameRes
  | b0 :: b1 :: b2 :: b3 :: rest =>
    let msg_len := be32dec b0 b1 b2 b3
    if msg_len > message_size_max then .tooLarge
    else if rest.length < msg_len then .eof
    else
      match dec (rest.take msg_len) with
      | none => .badDecode
      | some d => .frame d (rest.drop msg_len)
  | _ => .eof

/-- Model of journal_seek: read frames, advancing the elapsed time by each
delay, until the elapsed time reaches the target exactly (success), a check
overshoots the target (mismatch), the data runs out (EOF), a length field
exceeds the bound, or a frame fails to decode. -/
def journal_seek (dec : List Nat → Option (Option TimeSpec))
    (message_size_max : Nat) (target : TimeSpec) :
    TimeSpec → List Nat → SeekRes
  | e, b0 :: b1 :: b2 :: b3 :: rest =>
    let msg_len := be32dec b0 b1 b2 b3
    if msg_len > message_size_max then ⟨false, some tooLargeErr, e⟩
    else if rest.length < msg_len then ⟨false, some eofErr, e⟩
    else
      match dec (rest.take msg_len) with
      | none => ⟨false, some invalidErr, e⟩
      | some d =>
        let e2 := bumpDelay d e
        if ts_geb e2 target then
          if ts_eqb e2 target then ⟨true, none, e2⟩
          else ⟨false, some invalidErr, e2⟩
        else journal_seek dec message_size_max target e2 (rest.drop msg_len)
  | e, _ => ⟨false, some eofErr, e⟩
  termination_by _ l => l.length
  decreasing_by simp [List.length_drop]; omega

/-- Transcription of the claim wording for the success case of replay-seek:
scanning frames from elapsed time e, the accumulated elapsed time reaches
the target exactly, every earlier check being strictly below it. -/
inductive SeekHits (dec : List Nat → Option (Option TimeSpec))
    (message_size_max : Nat) (target : TimeSpec) : TimeSpec → List Nat → Prop where
  | hit : ∀ e bytes d rest, readFrame dec message_size_max bytes = .frame d rest →
      bumpDelay d e = target → SeekHits dec message_size_max target e bytes
  | step : ∀ e bytes d rest, readFrame dec message_size_max bytes = .frame d rest →
      tsLt (bumpDelay d e) target →
      SeekHits dec message_size_max target (bumpDelay d e) rest →
      SeekHits dec message_size_max target e bytes

/-- Transcription of the claim wording for the mismatch case of replay-seek:
some accumulated elapsed-time check strictly exceeds the target, all earlier
checks being strictly below it. -/
inductive SeekOvershoots (dec : List Nat → Option (Option TimeSpec))
    (message_size_max : Nat) (target : TimeSpec) : TimeSpec → List Nat → Prop where
  | here : ∀ e bytes d rest, readFrame dec message_size_max bytes = .frame d rest →
      tsLt target (bumpDelay d e) → SeekOvershoots dec message_size_max target e bytes
  | step : ∀ e bytes d rest, readFrame dec message_size_max bytes = .frame d rest →
      tsLt (bumpDelay d e) target →
      SeekOvershoots dec message_size_max target (bumpDelay d e) rest →
      SeekOvershoots dec message_size_max target e bytes

/-- Transcription of the claim wording for the EOF case of replay-seek: the
data runs out while the accumulated elapsed time is still strictly below the
target, all checks up to that point being strictly below it. -/
inductive SeekEofBefore (dec : List Nat → Option (Option TimeSpec))
    (message_size_max : Nat) (target : TimeSpec) : TimeSpec → List Nat → Prop where
  | here : ∀ e bytes, readFrame dec message_size_max bytes = .eof →
      tsLt e target → SeekEofBefore dec message_size_max target e bytes
  | step : ∀ e bytes d rest, readFrame dec message_size_max bytes = .frame d rest →
      tsLt (bumpDelay d e) target →
      SeekEofBefore dec message_size_max target (bumpDelay d e) rest →
      SeekEofBefore dec message_size_max target e bytes

/-- Data-bearing session messages routed to the sink handlers after accept:
I/O chunks, window-size changes and suspend events. -/
inductive Msg where
  | iobuf (iofd : Nat) (delay : TimeSpec) (data : List Nat)
  | winsize (delay : TimeSpec) (rows cols : Nat)
  | suspend (delay : TimeSpec) (signal : List Char)

/-- Delay field carried by a session message. -/
def msgDelay : Msg → TimeSpec
  | .iobuf _ d _ => d
  | .winsize d _ _ => d
  | .suspend d _ => d

/-- Whether a session message is an I/O chunk. -/
def msgIsIobuf : Msg → Bool
  | .iobuf _ _ _ => true
  | _ => false

/-- Dispatch one message to the matching local-sink handler, with the
external filesystem writes succeeding and the random-drop hook at its
default probability of zero. -/
def local_msg_step (st : LState) : Msg → Bool × LState
  | .iobuf iofd delay data => store_iobuf_local iofd delay data true true 0 0 st
  | .winsize delay rows cols => store_winsize_local delay rows cols true st
  | .suspend delay signal => store_suspend_local delay signal true st

/-- One dispatcher step of a local-sink session: run the handler and keep
track of whether every handler so far reported success. -/
def local_fold_step (acc : Bool × LState) (m : Msg) : Bool × LState :=
  let r := local_msg_step acc.2 m
  (acc.1 && r.1, r.2)

/-- Run a local-sink session over the messages, recording whether every
handler reported success. -/
def run_local (msgs : List Msg) : Bool × LState :=
  msgs.foldl local_fold_step (true, initLState)

/-- Journal-sink portion of the connection closure: the open journal file
and the cumulative elapsed time. -/
structure JClosure where
  file : JFile
  elapsed : TimeSpec
deriving DecidableEq, Repr

/-- Model of journal_iobuf: write one frame of the raw bytes, then advance
the elapsed time by the delay of the chunk. -/
def journal_iobuf (delay : TimeSpec) (raw : List Nat) (c : JClosure) : JClosure :=
  { c with file := journal_write raw c.file,
           elapsed := update_elapsed_time delay c.elapsed }

/-- Model of journal_winsize: write one frame of the raw bytes.  The handler
does not touch the elapsed time. -/
def journal_winsize (raw : List Nat) (c : JClosure) : JClosure :=
  { c with file := journal_write raw c.file }

/-- Model of journal_suspend: write one frame of the raw bytes.  The handler
does not touch the elapsed time. -/
def journal_suspend (raw : List Nat) (c : JClosure) : JClosure :=
  { c with file := journal_write raw c.file }

/-- Dispatch one message to the matching journal-sink handler; enc renders a
message back to its raw wire bytes (the black-box codec). -/
def journal_msg_step (enc : Msg → List Nat) (c : JClosure) : Msg → JClosure
  | .iobuf iofd delay data => journal_iobuf delay (enc (.iobuf iofd delay data)) c
  | .winsize delay rows cols => journal_winsize (enc (.winsize delay rows cols)) c
  | .suspend delay signal => journal_suspend (enc (.suspend delay signal)) c

/-- Run a journal-sink session over the messages, starting from the journal
file created by the accept handler. -/
def run_journal (enc : Msg → List Nat) (msgs : List Msg) : JClosure :=
  msgs.foldl (journal_msg_step enc) ⟨journal_create_file, ⟨0, 0⟩⟩

/-- Sum of the delay fields of all messages, in elapsed-time arithmetic. -/
def delaySumAll (msgs : List Msg) : TimeSpec :=
  msgs.foldl (fun e m => update_elapsed_time (msgDelay m) e) ⟨0, 0⟩

/-- Sum of the delay fields of the I/O chunk messages only. -/
def delaySumIobuf (msgs : List Msg) : TimeSpec :=
  msgs.foldl
    (fun e m => if msgIsIobuf m then update_elapsed_time (msgDelay m) e else e)
    ⟨0, 0⟩

/-- Suffix of a character list after its first slash, when one exists;
models the strchr part of the hostname strip in journal_restart. -/
def afterSlash : List Char → Option (List Char)
  | [] => none
  | c :: cs => if c = '/' then some cs else afterSlash cs

/-- Model of the hostname strip in journal_restart: when the log id holds a
slash and the first slash is not at the start, keep the suffix after that
slash; otherwise keep the whole log id. -/
def strip_log_id : List Char → List Char
  | [] => []
  | c :: cs =>
    if c = '/' then c :: cs
    else
      match afterSlash cs with
      | some suffix => suffix
      | none => c :: cs

/-- Size of the journal_path buffer in journal_restart. -/
def PATH_MAX : Nat := 4096

/-- Model of the path formatting in journal_restart: snprintf of
"%s/incoming/%s" over the relay dir and the stripped log id, failing when
the formatted length does not fit the PATH_MAX buffer. -/
def journal_restart_path (relay_dir log_id : List Char) : Option (List Char) :=
  let p := relay_dir ++ "/incoming/".data ++ strip_log_id log_id
  if p.length ≥ PATH_MAX then none else some p

/-- User-write permission bit (S_IWUSR). -/
def S_IWUSR : Nat := 0o200

/-- Group-write permission bit (S_IWGRP). -/
def S_IWGRP : Nat := 0o20

/-- Other-write permission bit (S_IWOTH). -/
def S_IWOTH : Nat := 0o2

/-- CLR(mode, S_IWUSR|S_IWGRP|S_IWOTH) on a 32-bit mode_t value. -/
def clear_write_bits (m : Nat) : Nat := m &&& (4294967295 - 0o222)

/-- Model of store_exit_local as it affects the timing-file mode: when an
I/O log exists, fchmodat sets the timing file to the configured iolog mode
with the three write bits cleared; a chmod failure is only logged, and the
handler returns success in every case. -/
def store_exit_local (log_io chmodOk : Bool) (iolog_mode timingMode : Nat) :
    Bool × Nat :=
  if log_io then
    if chmodOk then (true, clear_write_bits iolog_mode) else (true, timingMode)
  else (true, timingMode)

/-- Errstr set by store_restart_local on a cleared user-write bit. -/
def alreadyCompleteErr : String := "log is already complete, cannot be restarted"

/-- Model of store_restart_local up to the liveness check: allocation, the
directory open and the stat of the timing file may fail; then a timing file
whose user-write bit is clear is rejected as already complete; the remaining
pipeline (open files, rewrite or seek) is the abstract continuation cont.
The bad label substitutes "unable to restart log" for a missing errstr. -/
def store_restart_local (allocOk dirOk statOk : Bool) (timingMode : Nat)
    (cont : Bool × Option String) : Bool × Option String :=
  if !allocOk then (false, some "unable to allocate memory")
  else if !dirOk then (false, some "unable to restart log")
  else if !statOk then (false, some "unable to restart log")
  else if timingMode &&& S_IWUSR = 0 then (false, some alreadyCompleteErr)
  else if !cont.1 then (false, if cont.2 = none then some "unable to restart log" else cont.2)
  else (true, none)

/-- Result of the filesystem-level model of journal_finish. -/
structure FinishRes where
  ok : Bool
  errstr : Option String
  fs : List (String × List Nat)
  journal_path : String
deriving DecidableEq, Repr

/-- Lookup of a path in the modelled filesystem. -/
def fsLookup : List (String × List Nat) → String → Option (List Nat)
  | [], _ => none
  | (k, v) :: rest, q => if k = q then some v else fsLookup rest q

/-- Removal of a path from the modelled filesystem (unlink). -/
def fsErase : List (String × List Nat) → String → List (String × List Nat)
  | [], _ => []
  | (k, v) :: rest, q => if k = q then fsErase rest q else (k, v) :: fsErase rest q

/-- Model of journal_finish at the filesystem level: flush, create a fresh
empty placeholder at the outgoing path via journal_mkstemp, close it, and
rename the incoming journal onto it.  When the rename fails the placeholder
is unlinked, errstr is set, and the stored journal path together with the
incoming file are left as they were; on success the stored path becomes the
outgoing path (the equal-length memcpy and the strdup branch agree). -/
def journal_finish_fs (fs : List (String × List Nat))
    (journal_path outgoing_path : String)
    (flushOk mkstempOk renameOk : Bool) : FinishRes :=
  if !flushOk then ⟨false, some "unable to write journal file", fs, journal_path⟩
  else if !mkstempOk then ⟨false, some "unable to rename journal file", fs, journal_path⟩
  else
    let fs1 := (outgoing_path, []) :: fs
    if renameOk then
      let contents := (fsLookup fs1 journal_path).getD []
      ⟨true, none,
        (outgoing_path, contents) :: fsErase (fsErase fs1 outgoing_path) journal_path,
        outgoing_path⟩
    else
      ⟨false, some "unable to rename journal file", fsErase fs1 outgoing_path, journal_path⟩

/-! Helper lemmas. -/

theorem applyJOp_locked (f : JFile) (op : JOp) : (applyJOp f op).locked = f.locked := by
  cases op <;> rfl

theorem runJOps_locked (ops : List JOp) (f : JFile) :
    (runJOps f ops).locked = f.locked := by
  induction ops generalizing f with
  | nil => rfl
  | cons op ops ih =>
    have h : runJOps f (op :: ops) = runJOps (applyJOp f op) ops := rfl
    rw [h, ih, applyJOp_locked]

theorem fsLookup_fsErase_self (fs : List (String × List Nat)) (k : String) :
    fsLookup (fsErase fs k) k = none := by
  induction fs with
  | nil => rfl
  | cons p rest ih =>
    by_cases h : p.1 = k
    · simp [fsErase, h, ih]
    · simp [fsErase, h, fsLookup, ih]

theorem fsLookup_fsErase_ne (fs : List (String × List Nat)) (k q : String)
    (h : k ≠ q) : fsLookup (fsErase fs k) q = fsLookup fs q := by
  induction fs with
  | nil => rfl
  | cons p rest ih =>
    by_cases hp : p.1 = k
    · simp [fsErase, hp, fsLookup, ih]
      rw [if_neg h]
    · simp [fsErase, hp, fsLookup, ih]

/-! Claim C4. -/

/-- C4 counterexample: a journal reopened by the journal restart operation
does not hold the advisory exclusive lock, so the claim that every journal
file is locked for its whole lifetime, including journals reopened by
restart, is false. -/
theorem claim_C4_counterexample : (journal_restart_reopen [7]).locked = false := rfl

/-- C4 amended: a journal created on accept or reject is locked from its
creation and stays locked through any sequence of frame writes and the
finalization step, until the handle is closed at teardown; a journal
reopened by the restart operation is never locked. -/
theorem claim_C4_lock_lifetime (ops : List JOp) (d : List Nat) :
    (runJOps journal_create_file ops).locked = true ∧
    (runJOps (journal_restart_reopen d) ops).locked = false := by
  rw [runJOps_locked, runJOps_locked]
  exact ⟨rfl, rfl⟩

/-! Claim C6. -/

/-- C6: during journal replay-seek, a frame whose 4-byte big-endian length
field exceeds the configured size bound makes the operation fail with
errstr "client message too large", leaving the elapsed time untouched, for
any payload bytes whatsoever, which are never read. -/
theorem claim_C6_oversize_frame (dec : List Nat → Option (Option TimeSpec))
    (message_size_max : Nat) (target e : TimeSpec)
    (b0 b1 b2 b3 : Nat) (rest : List Nat)
    (h : be32dec b0 b1 b2 b3 > message_size_max) :
    journal_seek dec message_size_max target e (b0 :: b1 :: b2 :: b3 :: rest) =
      ⟨false, some tooLargeErr, e⟩ := by
  rw [journal_seek]
  simp [h]

/-- C6 witness: a concrete oversize frame is rejected. -/
theorem claim_C6_witness :
    be32dec 0 0 0 4 > 3 ∧
    journal_seek (fun _ => some none) 3 ⟨0, 0⟩ ⟨0, 0⟩ [0, 0, 0, 4] =
      ⟨false, some tooLargeErr, ⟨0, 0⟩⟩ :=
  ⟨by decide, claim_C6_oversize_frame (fun _ => some none) 3 ⟨0, 0⟩ ⟨0, 0⟩ 0 0 0 4 [] (by decide)⟩

/-! Claim C10. -/

/-- C10: when the rename of the incoming journal to the outgoing path fails
during finalization, the freshly created outgoing placeholder is unlinked,
errstr is set to "unable to rename journal file", the operation reports
failure, and both the incoming journal file and the stored journal path are
left unchanged.  The outgoing path is fresh, hence distinct from the stored
incoming path. -/
theorem claim_C10_rename_failure (fs : List (String × List Nat)) (jp op : String)
    (hne : op ≠ jp) :
    (journal_finish_fs fs jp op true true false).ok = false ∧
    (journal_finish_fs fs jp op true true false).errstr =
      some "unable to rename journal file" ∧
    fsLookup (journal_finish_fs fs jp op true true false).fs op = none ∧
    fsLookup (journal_finish_fs fs jp op true true false).fs jp = fsLookup fs jp ∧
    (journal_finish_fs fs jp op true true false).journal_path = jp := by
  refine ⟨rfl, rfl, ?_, ?_, rfl⟩
  · show fsLookup (fsErase ((op, []) :: fs) op) op = none
    exact fsLookup_fsErase_self _ _
  · show fsLookup (fsErase ((op, []) :: fs) op) jp = fsLookup fs jp
    have h : fsErase ((op, []) :: fs) op = fsErase fs op := by simp [fsErase]
    rw [h, fsLookup_fsErase_ne fs op jp hne]

/-- C10 witness: a concrete failed rename leaves the incoming journal and
the stored path alone and removes the placeholder. -/
theorem claim_C10_witness :
    ("out" ≠ "in") ∧
    (journal_finish_fs [("in", [1])] "in" "out" true true false).ok = false ∧
    fsLookup (journal_finish_fs [("in", [1])] "in" "out" true true false).fs "in" =
      fsLookup [("in", [1])] "in" :=
  ⟨by decide,
   (claim_C10_rename_failure [("in", [1])] "in" "out" (by decide)).1,
   (claim_C10_rename_failure [("in", [1])] "in" "out" (by decide)).2.2.2.1⟩

/-! Claim C5. -/

theorem clear_write_bits_masks (m : Nat) :
    clear_write_bits m &&& (S_IWUSR ||| S_IWGRP ||| S_IWOTH) = 0 := by
  unfold clear_write_bits S_IWUSR S_IWGRP S_IWOTH
  rw [Nat.land_assoc]
  have h : (4294967295 - 0o222) &&& (0o200 ||| 0o20 ||| 0o2) = 0 := by decide
  rw [h]
  simp

theorem clear_write_bits_user (m : Nat) : clear_write_bits m &&& S_IWUSR = 0 := by
  unfold clear_write_bits S_IWUSR
  rw [Nat.land_assoc]
  have h : (4294967295 - 0o222) &&& 0o200 = 0 := by decide
  rw [h]
  simp

/-- C5: on a session with an I/O log, a successful exit returns success
whether or not the chmod works; when it works, the timing-file mode has the
user, group and other write bits cleared; any restart whose stat shows a
timing file without the user-write bit fails with errstr "log is already
complete, cannot be restarted"; in particular a restart following a
successful exit fails that way. -/
theorem claim_C5_exit_then_restart (chmodOk : Bool) (iolog_mode timingMode tm2 : Nat)
    (cont : Bool × Option String) (h2 : tm2 &&& S_IWUSR = 0) :
    (store_exit_local true chmodOk iolog_mode timingMode).1 = true ∧
    (store_exit_local true true iolog_mode timingMode).2 &&&
      (S_IWUSR ||| S_IWGRP ||| S_IWOTH) = 0 ∧
    store_restart_local true true true tm2 cont = (false, some alreadyCompleteErr) ∧
    store_restart_local true true true
        ((store_exit_local true true iolog_mode timingMode).2) cont
      = (false, some alreadyCompleteErr) := by
  refine ⟨?_, ?_, ?_, ?_⟩
  · cases chmodOk <;> rfl
  · exact clear_write_bits_masks iolog_mode
  · simp [store_restart_local, h2]
  · simp [store_restart_local, store_exit_local, clear_write_bits_user]

/-- C5 witness: a concrete exit-then-restart sequence. -/
theorem claim_C5_witness :
    ((0 : Nat) &&& S_IWUSR = 0) ∧
    (store_exit_local true false 0o640 0o640).1 = true ∧
    store_restart_local true true true ((store_exit_local true true 0o640 0o640).2)
        (true, none) = (false, some alreadyCompleteErr) :=
  ⟨by decide,
   (claim_C5_exit_then_restart false 0o640 0o640 0 (true, none) (by decide)).1,
   (claim_C5_exit_then_restart false 0o640 0o640 0 (true, none) (by decide)).2.2.2⟩

/-! Claim C9. -/

/-- C9: a local-sink iobuf call whose stream and timing writes succeed but
whose sampled uniform random value falls below a positive drop probability
returns failure with errstr left unset; with the default probability of
zero the call is never dropped and returns success. -/
theorem claim_C9_random_drop (iofd : Nat) (delay : TimeSpec) (data : List Nat)
    (p r : ℚ) (st : LState) (herr : st.errstr = none)
    (hlen : (timingLine iofd delay data.length).length < 1024) :
    (0 < p → r < p →
      (store_iobuf_local iofd delay data true true p r st).1 = false ∧
      (store_iobuf_local iofd delay data true true p r st).2.errstr = none) ∧
    (store_iobuf_local iofd delay data true true 0 r st).1 = true := by
  have h1 : ¬ (timingLine iofd delay data.length).length ≥ 1024 := by omega
  refine ⟨fun hp hr => ?_, ?_⟩
  · simp [store_iobuf_local, h1, hp, hr, herr]
  · simp [store_iobuf_local, h1, herr]

theorem timingLine_small_len : (timingLine 2 ⟨0, 1⟩ 1).length < 1024 := by
  simp [timingLine, natDigits, pad9, intDec]

/-- C9 witness: a concrete dropped call and a concrete default-probability
call. -/
theorem claim_C9_witness :
    initLState.errstr = none ∧
    (timingLine 2 ⟨0, 1⟩ 1).length < 1024 ∧
    (store_iobuf_local 2 ⟨0, 1⟩ [97] true true (1/2) 0 initLState).1 = false ∧
    (store_iobuf_local 2 ⟨0, 1⟩ [97] true true (1/2) 0 initLState).2.errstr = none ∧
    (store_iobuf_local 2 ⟨0, 1⟩ [97] true true 0 0 initLState).1 = true :=
  ⟨rfl, timingLine_small_len,
   ((claim_C9_random_drop 2 ⟨0, 1⟩ [97] (1/2) 0 initLState rfl timingLine_small_len).1
      (by norm_num) (by norm_num)).1,
   ((claim_C9_random_drop 2 ⟨0, 1⟩ [97] (1/2) 0 initLState rfl timingLine_small_len).1
      (by norm_num) (by norm_num)).2,
   (claim_C9_random_drop 2 ⟨0, 1⟩ [97] 0 0 initLState rfl timingLine_small_len).2⟩

/-! Claim C7. -/

theorem afterSlash_append (pre suf : List Char) (h : '/' ∉ pre) :
    afterSlash (pre ++ '/' :: suf) = some suf := by
  induction pre with
  | nil => simp [afterSlash]
  | cons c cs ih =>
    have hc : ¬ c = '/' := fun hh => h (by simp [hh])
    have hcs : '/' ∉ cs := fun hh => h (by simp [hh])
    simp [afterSlash, hc, ih hcs]

theorem afterSlash_none (l : List Char) (h : '/' ∉ l) : afterSlash l = none := by
  induction l with
  | nil => rfl
  | cons c cs ih =>
    have hc : ¬ c = '/' := fun hh => h (by simp [hh])
    have hcs : '/' ∉ cs := fun hh => h (by simp [hh])
    simp [afterSlash, hc, ih hcs]

/-- C7: whenever the journal restart operation succeeds in formatting the
path to reopen, that path is relay-dir/incoming/stripped, where stripped is
the suffix of the log id after its first slash when the log id holds a
slash not at position zero, the whole log id (leading slash kept) when it
begins with a slash, and the unchanged log id when it holds no slash. -/
theorem claim_C7_restart_path (relay_dir log_id p : List Char)
    (hp : journal_restart_path relay_dir log_id = some p) :
    (∀ c pre suf, c ≠ '/' → '/' ∉ pre → log_id = c :: (pre ++ '/' :: suf) →
        p = relay_dir ++ "/incoming/".data ++ suf) ∧
    (∀ cs, log_id = '/' :: cs → p = relay_dir ++ "/incoming/".data ++ log_id) ∧
    ('/' ∉ log_id → p = relay_dir ++ "/incoming/".data ++ log_id) := by
  have hp2 : p = relay_dir ++ "/incoming/".data ++ strip_log_id log_id := by
    simp only [journal_restart_path] at hp
    split at hp
    · cases hp
    · exact (Option.some.inj hp).symm
  refine ⟨?_, ?_, ?_⟩
  · intro c pre suf hc hpre hlog
    subst hlog
    rw [hp2]
    simp [strip_log_id, hc, afterSlash_append pre suf hpre]
  · intro cs hlog
    subst hlog
    rw [hp2]
    simp [strip_log_id]
  · intro hnosl
    rw [hp2]
    cases hl : log_id with
    | nil => simp [strip_log_id]
    | cons c cs =>
      subst hl
      have hc : ¬ c = '/' := fun hh => hnosl (by simp [hh])
      have hcs : '/' ∉ cs := fun hh => hnosl (by simp [hh])
      simp [strip_log_id, hc, afterSlash_none cs hcs]

/-- C7 witness: the hostname segment of a concrete log id is stripped. -/
theorem claim_C7_witness :
    journal_restart_path [] ('h' :: '/' :: 'a' :: 'b' :: []) =
      some ('/' :: 'i' :: 'n' :: 'c' :: 'o' :: 'm' :: 'i' :: 'n' :: 'g' :: '/' ::
        'a' :: 'b' :: []) ∧
    ('/' :: 'i' :: 'n' :: 'c' :: 'o' :: 'm' :: 'i' :: 'n' :: 'g' :: '/' ::
        'a' :: 'b' :: []) = [] ++ "/incoming/".data ++ ['a', 'b'] :=
  ⟨by decide,
   (claim_C7_restart_path [] ('h' :: '/' :: 'a' :: 'b' :: []) _ (by decide)).1
     'h' [] ['a', 'b'] (by decide) (by decide) rfl⟩

/-! Claim C8. -/

theorem natDigits_length_le (k : Nat) : ∀ n : Nat, n < 10 ^ (k + 1) →
    (natDigits n).length ≤ k + 1 := by
  induction k with
  | zero =>
    intro n hn
    rw [natDigits]
    have h10 : n < 10 := by
      simpa using hn
    simp [h10]
  | succ k ih =>
    intro n hn
    rw [natDigits]
    by_cases h10 : n < 10
    · simp [h10]
    · simp only [h10, if_false, List.length_append, List.length_singleton]
      have hdiv : n / 10 < 10 ^ (k + 1) := by
        rw [Nat.div_lt_iff_lt_mul (by omega : 0 < 10)]
        calc n < 10 ^ (k + 1 + 1) := hn
        _ = 10 ^ (k + 1) * 10 := by ring
      have := ih (n / 10) hdiv
      omega

theorem pad9_length (n : Nat) (h : n < 1000000000) : (pad9 n).length = 9 := by
  have hle : (natDigits n).length ≤ 9 := by
    have := natDigits_length_le 8 n (by norm_num at h ⊢; omega)
    omega
  simp only [pad9, List.length_append, List.length_replicate]
  omega

theorem digitChar_ne_newline (d : Nat) (h : d < 10) : Nat.digitChar d ≠ '\n' := by
  interval_cases d <;> decide

theorem natDigits_no_newline (n : Nat) : '\n' ∉ natDigits n := by
  induction n using Nat.strong_induction_on with
  | _ n ih =>
    rw [natDigits]
    by_cases h10 : n < 10
    · simp only [h10, if_true, List.mem_singleton]
      exact fun hh => digitChar_ne_newline n h10 hh.symm
    · simp only [h10, if_false, List.mem_append, List.mem_singleton]
      rintro (hmem | heq)
      · exact ih (n / 10) (Nat.div_lt_self (by omega) (by omega)) hmem
      · exact digitChar_ne_newline (n % 10) (Nat.mod_lt n (by omega)) heq.symm

theorem intDec_no_newline (i : Int) : '\n' ∉ intDec i := by
  unfold intDec
  split
  · simp only [List.mem_cons]
    rintro (h | h)
    · cases h
    · exact natDigits_no_newline _ h
  · exact natDigits_no_newline _

theorem pad9_no_newline (n : Nat) : '\n' ∉ pad9 n := by
  simp only [pad9, List.mem_append, List.mem_replicate]
  rintro (⟨_, h⟩ | h)
  · cases h
  · exact natDigits_no_newline _ h

theorem timingBody_no_newline (iofd : Nat) (delay : TimeSpec) (datalen : Nat) :
    '\n' ∉ (natDigits iofd ++ [' '] ++ intDec delay.sec ++ ['.']
      ++ pad9 delay.nsec.toNat ++ [' '] ++ natDigits datalen) := by
  simp only [List.mem_append, List.mem_singleton]
  rintro ((((((h | h) | h) | h) | h) | h) | h)
  · exact natDigits_no_newline _ h
  · cases h
  · exact intDec_no_newline _ h
  · cases h
  · exact pad9_no_newline _ h
  · cases h
  · exact natDigits_no_newline _ h

/-- C8: a successful local-sink iobuf call appends the data bytes to the
stream file of its slot, advances the elapsed time by the delay of the
chunk, and appends to the timing file exactly one newline-terminated line
consisting of the slot number, the delay seconds as a signed decimal, a
dot, the delay nanoseconds zero-padded to exactly nine digits, and the
data length. -/
theorem claim_C8_iobuf_line (iofd : Nat) (delay : TimeSpec) (data : List Nat)
    (sOk tOk : Bool) (p r : ℚ) (st : LState)
    (hnsec0 : 0 ≤ delay.nsec) (hnsec : delay.nsec < 1000000000)
    (hok : (store_iobuf_local iofd delay data sOk tOk p r st).1 = true) :
    (store_iobuf_local iofd delay data sOk tOk p r st).2.timing =
      st.timing ++ timingLine iofd delay data.length ∧
    (store_iobuf_local iofd delay data sOk tOk p r st).2.streams iofd =
      st.streams iofd ++ data ∧
    (store_iobuf_local iofd delay data sOk tOk p r st).2.elapsed =
      update_elapsed_time delay st.elapsed ∧
    timingLine iofd delay data.length =
      (natDigits iofd ++ [' '] ++ intDec delay.sec ++ ['.']
        ++ pad9 delay.nsec.toNat ++ [' '] ++ natDigits data.length) ++ ['\n'] ∧
    '\n' ∉ (natDigits iofd ++ [' '] ++ intDec delay.sec ++ ['.']
        ++ pad9 delay.nsec.toNat ++ [' '] ++ natDigits data.length) ∧
    (pad9 delay.nsec.toNat).length = 9 := by
  have hta : delay.nsec.toNat < 1000000000 := by omega
  by_cases h1 : (timingLine iofd delay data.length).length ≥ 1024
  · exfalso
    simp [store_iobuf_local, h1] at hok
  cases sOk with
  | false => exfalso; simp [store_iobuf_local, h1] at hok
  | true =>
    cases tOk with
    | false => exfalso; simp [store_iobuf_local, h1] at hok
    | true =>
      by_cases hd : 0 < p ∧ r < p
      · exfalso
        simp [store_iobuf_local, h1, hd] at hok
      · refine ⟨?_, ?_, ?_, ?_, timingBody_no_newline iofd delay data.length,
          pad9_length _ hta⟩
        · simp [store_iobuf_local, h1, hd]
        · simp [store_iobuf_local, h1, hd, Function.update]
        · simp [store_iobuf_local, h1, hd]
        · simp [timingLine]

/-- C8 witness: a concrete successful iobuf call appends its line and data. -/
theorem claim_C8_witness :
    ((0 : Int) ≤ (⟨0, 1⟩ : TimeSpec).nsec) ∧
    ((⟨0, 1⟩ : TimeSpec).nsec < 1000000000) ∧
    (store_iobuf_local 2 ⟨0, 1⟩ [97] true true 0 0 initLState).1 = true ∧
    (store_iobuf_local 2 ⟨0, 1⟩ [97] true true 0 0 initLState).2.streams 2 =
      initLState.streams 2 ++ [97] ∧
    (pad9 ((⟨0, 1⟩ : TimeSpec).nsec.toNat)).length = 9 :=
  ⟨by decide, by decide,
   by simp [store_iobuf_local, timingLine, natDigits, intDec, pad9],
   ((claim_C8_iobuf_line 2 ⟨0, 1⟩ [97] true true 0 0 initLState (by decide) (by decide)
      (by simp [store_iobuf_local, timingLine, natDigits, intDec, pad9])).2.1),
   ((claim_C8_iobuf_line 2 ⟨0, 1⟩ [97] true true 0 0 initLState (by decide) (by decide)
      (by simp [store_iobuf_local, timingLine, natDigits, intDec, pad9])).2.2.2.2.2)⟩

/-! Claim C2. -/

theorem be32_roundtrip (n : Nat) (h : n < 4294967296) :
    be32dec (n / 16777216 % 256) (n / 65536 % 256) (n / 256 % 256) (n % 256) = n := by
  unfold be32dec
  omega

theorem journal_fold_data (bufs : List (List Nat)) (f : JFile) :
    (bufs.foldl (fun f b => journal_write b f) f).data =
      f.data ++ (bufs.map (fun b => be32enc (b.length % 4294967296) ++ b)).flatten := by
  induction bufs generalizing f with
  | nil => simp
  | cons b bs ih =>
    simp only [List.foldl_cons, List.map_cons, List.flatten_cons]
    rw [ih (journal_write b f)]
    simp [journal_write, List.append_assoc]

theorem parseFrames_frame (b rest : List Nat) (h : b.length < 4294967296) :
    parseFrames (be32enc (b.length % 4294967296) ++ b ++ rest) =
      match parseFrames rest with
      | some fs => some (b :: fs)
      | none => none := by
  have hm : b.length % 4294967296 = b.length := Nat.mod_eq_of_lt h
  rw [hm]
  show parseFrames ((b.length / 16777216 % 256) :: (b.length / 65536 % 256) ::
    (b.length / 256 % 256) :: (b.length % 256) :: (b ++ rest)) = _
  rw [parseFrames]
  rw [be32_roundtrip b.length h]
  have hle : b.length ≤ (b ++ rest).length := by
    simp
  rw [if_pos hle]
  rw [List.take_left, List.drop_left]

theorem parseFrames_flatten (bufs : List (List Nat))
    (h : ∀ b ∈ bufs, b.length < 4294967296) :
    parseFrames ((bufs.map (fun b => be32enc (b.length % 4294967296) ++ b)).flatten)
      = some bufs := by
  induction bufs with
  | nil =>
    simp only [List.map_nil, List.flatten_nil]
    rw [parseFrames]
  | cons b bs ih =>
    simp only [List.map_cons, List.flatten_cons]
    rw [parseFrames_frame b _ (h b (by simp))]
    rw [ih (fun x hx => h x (by simp [hx]))]

/-- C2: for any sequence of raw wire messages handed to the journal sink
and ended by a successful exit, reading the finalized outgoing journal file
back as frames of a 4-byte big-endian length followed by that many payload
bytes yields exactly the original messages in order. -/
theorem claim_C2_framing_roundtrip (bufs : List (List Nat))
    (h : ∀ b ∈ bufs, b.length < 4294967296) :
    parseFrames (journal_run_session bufs).data = some bufs := by
  unfold journal_run_session journal_finish_file
  rw [journal_fold_data]
  simpa [journal_create_file] using parseFrames_flatten bufs h

/-- C2 witness: a concrete two-message session round-trips. -/
theorem claim_C2_witness :
    (∀ b ∈ [[1], [2, 3]], List.length b < 4294967296) ∧
    parseFrames (journal_run_session [[1], [2, 3]]).data = some [[1], [2, 3]] :=
  ⟨by decide, claim_C2_framing_roundtrip [[1], [2, 3]] (by decide)⟩

/-! Claim C1. -/

theorem local_step_elapsed (st : LState) (m : Msg)
    (h : (local_msg_step st m).1 = true) :
    (local_msg_step st m).2.elapsed = update_elapsed_time (msgDelay m) st.elapsed := by
  cases m with
  | iobuf iofd delay data =>
    by_cases h1 : (timingLine iofd delay data.length).length ≥ 1024
    · exfalso
      simp [local_msg_step, store_iobuf_local, h1] at h
    · simp [local_msg_step, store_iobuf_local, h1, msgDelay]
  | winsize delay rows cols =>
    by_cases h1 : (winsizeLine delay rows cols).length ≥ 1024
    · exfalso
      simp [local_msg_step, store_winsize_local, h1] at h
    · simp [local_msg_step, store_winsize_local, h1, msgDelay]
  | suspend delay signal =>
    by_cases h1 : (suspendLine delay signal).length ≥ 1024
    · exfalso
      simp [local_msg_step, store_suspend_local, h1] at h
    · simp [local_msg_step, store_suspend_local, h1, msgDelay]

theorem local_fold_step_eq (b : Bool) (st : LState) (m : Msg) :
    local_fold_step (b, st) m =
      (b && (local_msg_step st m).1, (local_msg_step st m).2) := rfl

theorem run_local_go_false (msgs : List Msg) : ∀ (st : LState),
    (msgs.foldl local_fold_step (false, st)).1 = false := by
  induction msgs with
  | nil => intro st; rfl
  | cons m ms ih =>
    intro st
    rw [List.foldl_cons, local_fold_step_eq, Bool.false_and]
    exact ih _

theorem run_local_go (msgs : List Msg) : ∀ (b : Bool) (st : LState),
    (msgs.foldl local_fold_step (b, st)).1 = true →
    (msgs.foldl local_fold_step (b, st)).2.elapsed =
      msgs.foldl (fun e m => update_elapsed_time (msgDelay m) e) st.elapsed := by
  induction msgs with
  | nil => intro b st _; rfl
  | cons m ms ih =>
    intro b st h
    rw [List.foldl_cons, local_fold_step_eq] at h ⊢
    rw [List.foldl_cons]
    cases hb : (local_msg_step st m).1 with
    | false =>
      exfalso
      rw [hb, Bool.and_false] at h
      rw [run_local_go_false ms ((local_msg_step st m).2)] at h
      cases h
    | true =>
      rw [hb, Bool.and_true] at h
      rw [Bool.and_true]
      rw [ih b ((local_msg_step st m).2) h, local_step_elapsed st m hb]

theorem run_journal_go (enc : Msg → List Nat) (msgs : List Msg) :
    ∀ c : JClosure,
    (msgs.foldl (journal_msg_step enc) c).elapsed =
      msgs.foldl
        (fun e m => if msgIsIobuf m then update_elapsed_time (msgDelay m) e else e)
        c.elapsed := by
  induction msgs with
  | nil => intro c; rfl
  | cons m ms ih =>
    intro c
    simp only [List.foldl_cons]
    rw [ih]
    cases m <;> rfl

theorem sums_fold_eq (msgs : List Msg) (h : ∀ m ∈ msgs, msgIsIobuf m = true) :
    ∀ e : TimeSpec,
    msgs.foldl
      (fun e m => if msgIsIobuf m then update_elapsed_time (msgDelay m) e else e) e =
    msgs.foldl (fun e m => update_elapsed_time (msgDelay m) e) e := by
  induction msgs with
  | nil => intro e; rfl
  | cons m ms ih =>
    intro e
    have hm : msgIsIobuf m = true := h m (by simp)
    rw [List.foldl_cons, List.foldl_cons, if_pos hm]
    exact ih (fun x hx => h x (by simp [hx])) _

theorem sums_eq_of_all_iobuf (msgs : List Msg)
    (h : ∀ m ∈ msgs, msgIsIobuf m = true) :
    delaySumIobuf msgs = delaySumAll msgs := by
  unfold delaySumIobuf delaySumAll
  exact sums_fold_eq msgs h ⟨0, 0⟩

/-- C1 counterexample: a session of one successfully handled suspend event
ends with a journal-sink elapsed time different from the sum of the
processed delays, refuting the claim that the final elapsed time equals
that sum under either sink. -/
theorem claim_C1_counterexample :
    (run_local [Msg.suspend ⟨1, 0⟩ []]).1 = true ∧
    (run_journal (fun _ => []) [Msg.suspend ⟨1, 0⟩ []]).elapsed ≠
      delaySumAll [Msg.suspend ⟨1, 0⟩ []] := by
  constructor
  · simp [run_local, local_fold_step, local_msg_step, store_suspend_local, suspendLine,
      natDigits, intDec, pad9, IO_EVENT_SUSPEND]
  · decide

/-- C1 amended: for a session whose messages are all handled successfully,
the final local-sink elapsed time equals the sum of the delays of all
processed I/O chunk, window-resize and suspend events, while the final
journal-sink elapsed time equals the sum of the I/O chunk delays only; the
two sinks agree whenever the session consists of I/O chunks alone. -/
theorem claim_C1_elapsed_amended (enc : Msg → List Nat) (msgs : List Msg)
    (hok : (run_local msgs).1 = true) :
    (run_local msgs).2.elapsed = delaySumAll msgs ∧
    (run_journal enc msgs).elapsed = delaySumIobuf msgs ∧
    ((∀ m ∈ msgs, msgIsIobuf m = true) →
      (run_journal enc msgs).elapsed = (run_local msgs).2.elapsed) := by
  have h1 : (run_local msgs).2.elapsed = delaySumAll msgs :=
    run_local_go msgs true initLState hok
  have h2 : (run_journal enc msgs).elapsed = delaySumIobuf msgs :=
    run_journal_go enc msgs _
  exact ⟨h1, h2, fun hall => by rw [h1, h2, sums_eq_of_all_iobuf msgs hall]⟩

/-- C1 witness: a concrete single-chunk session where both sinks agree with
the delay sum. -/
theorem claim_C1_witness :
    (run_local [Msg.iobuf 2 ⟨0, 1⟩ [97]]).1 = true ∧
    (run_local [Msg.iobuf 2 ⟨0, 1⟩ [97]]).2.elapsed =
      delaySumAll [Msg.iobuf 2 ⟨0, 1⟩ [97]] ∧
    (run_journal (fun _ => []) [Msg.iobuf 2 ⟨0, 1⟩ [97]]).elapsed =
      (run_local [Msg.iobuf 2 ⟨0, 1⟩ [97]]).2.elapsed := by
  have hok : (run_local [Msg.iobuf 2 ⟨0, 1⟩ [97]]).1 = true := by
    simp [run_local, local_fold_step, local_msg_step, store_iobuf_local, timingLine,
      natDigits, intDec, pad9]
  refine ⟨hok, ?_, ?_⟩
  · exact (claim_C1_elapsed_amended (fun _ => []) [Msg.iobuf 2 ⟨0, 1⟩ [97]] hok).1
  · exact (claim_C1_elapsed_amended (fun _ => []) [Msg.iobuf 2 ⟨0, 1⟩ [97]] hok).2.2
      (by intro m hm; simp at hm; subst hm; rfl)

/-! Claim C3. -/

theorem ts_eqb_true {a b : TimeSpec} (h : ts_eqb a b = true) : a = b := by
  unfold ts_eqb at h
  simp only [Bool.and_eq_true, decide_eq_true_eq] at h
  cases a
  cases b
  simp_all

theorem ts_eqb_refl (a : TimeSpec) : ts_eqb a a = true := by
  unfold ts_eqb
  simp

theorem ts_geb_refl (a : TimeSpec) : ts_geb a a = true := by
  unfold ts_geb
  simp

theorem ts_geb_of_eq {a b : TimeSpec} (h : a = b) : ts_geb a b = true := by
  rw [h]
  exact ts_geb_refl b

theorem ts_geb_false {a b : TimeSpec} (h : ts_geb a b = false) : tsLt a b := by
  unfold ts_geb at h
  unfold tsLt
  split_ifs at h with hsec
  · simp only [decide_eq_false_iff_not] at h
    exact Or.inr ⟨hsec, by omega⟩
  · simp only [decide_eq_false_iff_not] at h
    exact Or.inl (by omega)

theorem ts_geb_false_of_lt {a b : TimeSpec} (h : tsLt a b) : ts_geb a b = false := by
  unfold ts_geb
  unfold tsLt at h
  split_ifs with hsec <;> simp only [decide_eq_false_iff_not] <;> omega

theorem ts_geb_of_gt {a b : TimeSpec} (h : tsLt b a) : ts_geb a b = true := by
  unfold ts_geb
  unfold tsLt at h
  split_ifs with hsec <;> simp only [decide_eq_true_eq] <;> omega

theorem ts_eqb_false_of_gt {a b : TimeSpec} (h : tsLt b a) : ts_eqb a b = false := by
  unfold ts_eqb
  unfold tsLt at h
  rcases h with h | ⟨h1, h2⟩
  · have hs : decide (a.sec = b.sec) = false := by
      simp only [decide_eq_false_iff_not]
      omega
    rw [hs, Bool.false_and]
  · have hn : decide (a.nsec = b.nsec) = false := by
      simp only [decide_eq_false_iff_not]
      omega
    rw [hn, Bool.and_false]

theorem readFrame_length {dec : List Nat → Option (Option TimeSpec)}
    {msm : Nat} {bytes : List Nat} {d : Option TimeSpec} {rest : List Nat}
    (h : readFrame dec msm bytes = .frame d rest) : rest.length + 4 ≤ bytes.length := by
  rcases bytes with _ | ⟨b0, _ | ⟨b1, _ | ⟨b2, _ | ⟨b3, tail⟩⟩⟩⟩
  · exact FrameRes.noConfusion h
  · exact FrameRes.noConfusion h
  · exact FrameRes.noConfusion h
  · exact FrameRes.noConfusion h
  · simp only [readFrame] at h
    by_cases h1 : be32dec b0 b1 b2 b3 > msm
    · rw [if_pos h1] at h
      exact FrameRes.noConfusion h
    · rw [if_neg h1] at h
      by_cases h2 : tail.length < be32dec b0 b1 b2 b3
      · rw [if_pos h2] at h
        exact FrameRes.noConfusion h
      · rw [if_neg h2] at h
        rcases hdec : dec (tail.take (be32dec b0 b1 b2 b3)) with _ | d0
        · rw [hdec] at h
          exact FrameRes.noConfusion h
        · rw [hdec] at h
          simp only [FrameRes.frame.injEq] at h
          obtain ⟨_, hrest⟩ := h
          subst hrest
          simp only [List.length_drop, List.length_cons]
          omega

theorem journal_seek_eq (dec : List Nat → Option (Option TimeSpec))
    (msm : Nat) (tgt e : TimeSpec) (bytes : List Nat) :
    journal_seek dec msm tgt e bytes =
      match readFrame dec msm bytes with
      | .eof => ⟨false, some eofErr, e⟩
      | .tooLarge => ⟨false, some tooLargeErr, e⟩
      | .badDecode => ⟨false, some invalidErr, e⟩
      | .frame d rest =>
        if ts_geb (bumpDelay d e) tgt then
          if ts_eqb (bumpDelay d e) tgt then ⟨true, none, bumpDelay d e⟩
          else ⟨false, some invalidErr, bumpDelay d e⟩
        else journal_seek dec msm tgt (bumpDelay d e) rest := by
  rcases bytes with _ | ⟨b0, _ | ⟨b1, _ | ⟨b2, _ | ⟨b3, tail⟩⟩⟩⟩
  · simp only [journal_seek, readFrame]
  · simp only [journal_seek, readFrame]
  · simp only [journal_seek, readFrame]
  · simp only [journal_seek, readFrame]
  · rw [journal_seek]
    simp only [readFrame]
    split_ifs with h1 h2
    · rfl
    · rfl
    · rcases hdec : dec (tail.take (be32dec b0 b1 b2 b3)) with _ | d0
      · rfl
      · rfl

theorem journal_seek_eof {dec : List Nat → Option (Option TimeSpec)}
    {msm : Nat} {bytes : List Nat} (hrf : readFrame dec msm bytes = .eof)
    (tgt e : TimeSpec) :
    journal_seek dec msm tgt e bytes = ⟨false, some eofErr, e⟩ := by
  rw [journal_seek_eq, hrf]

theorem journal_seek_frame {dec : List Nat → Option (Option TimeSpec)}
    {msm : Nat} {bytes : List Nat} {d : Option TimeSpec} {rest : List Nat}
    (hrf : readFrame dec msm bytes = .frame d rest) (tgt e : TimeSpec) :
    journal_seek dec msm tgt e bytes =
      if ts_geb (bumpDelay d e) tgt then
        if ts_eqb (bumpDelay d e) tgt then ⟨true, none, bumpDelay d e⟩
        else ⟨false, some invalidErr, bumpDelay d e⟩
      else journal_seek dec msm tgt (bumpDelay d e) rest := by
  rw [journal_seek_eq, hrf]

theorem seek_ok_hits (dec : List Nat → Option (Option TimeSpec))
    (msm : Nat) (tgt : TimeSpec) :
    ∀ N (bytes : List Nat), bytes.length ≤ N → ∀ e,
    (journal_seek dec msm tgt e bytes).ok = true →
    SeekHits dec msm tgt e bytes := by
  intro N
  induction N with
  | zero =>
    intro bytes hN e hok
    have hnil : bytes = [] := List.eq_nil_of_length_eq_zero (by omega)
    subst hnil
    rw [journal_seek_eof (show readFrame dec msm [] = .eof from rfl)] at hok
    cases hok
  | succ N ih =>
    intro bytes hN e hok
    cases hrf : readFrame dec msm bytes with
    | eof =>
      rw [journal_seek_eof hrf] at hok
      cases hok
    | tooLarge =>
      rw [journal_seek_eq, hrf] at hok
      cases hok
    | badDecode =>
      rw [journal_seek_eq, hrf] at hok
      cases hok
    | frame d rest =>
      rw [journal_seek_frame hrf] at hok
      by_cases hge : ts_geb (bumpDelay d e) tgt = true
      · by_cases heq : ts_eqb (bumpDelay d e) tgt = true
        · exact SeekHits.hit e bytes d rest hrf (ts_eqb_true heq)
        · rw [if_pos hge, if_neg heq] at hok
          cases hok
      · rw [if_neg hge] at hok
        have hlen := readFrame_length hrf
        exact SeekHits.step e bytes d rest hrf
          (ts_geb_false (by cases hgb : ts_geb (bumpDelay d e) tgt with
            | false => rfl
            | true => exact absurd hgb hge))
          (ih rest (by omega) _ hok)

theorem hits_seek_ok {dec : List Nat → Option (Option TimeSpec)}
    {msm : Nat} {tgt e : TimeSpec} {bytes : List Nat}
    (h : SeekHits dec msm tgt e bytes) :
    (journal_seek dec msm tgt e bytes).ok = true := by
  induction h with
  | hit e bytes d rest hrf hbump =>
    rw [journal_seek_frame hrf, if_pos (ts_geb_of_eq hbump),
      if_pos (by rw [hbump]; exact ts_eqb_refl tgt)]
  | step e bytes d rest hrf hlt hrec ih =>
    rw [journal_seek_frame hrf,
      if_neg (by simp [ts_geb_false_of_lt hlt])]
    exact ih

theorem overshoot_seek {dec : List Nat → Option (Option TimeSpec)}
    {msm : Nat} {tgt e : TimeSpec} {bytes : List Nat}
    (h : SeekOvershoots dec msm tgt e bytes) :
    (journal_seek dec msm tgt e bytes).ok = false ∧
    (journal_seek dec msm tgt e bytes).errstr = some invalidErr := by
  induction h with
  | here e bytes d rest hrf hgt =>
    rw [journal_seek_frame hrf, if_pos (ts_geb_of_gt hgt),
      if_neg (by simp [ts_eqb_false_of_gt hgt])]
    exact ⟨rfl, rfl⟩
  | step e bytes d rest hrf hlt hrec ih =>
    rw [journal_seek_frame hrf,
      if_neg (by simp [ts_geb_false_of_lt hlt])]
    exact ih

theorem eof_seek {dec : List Nat → Option (Option TimeSpec)}
    {msm : Nat} {tgt e : TimeSpec} {bytes : List Nat}
    (h : SeekEofBefore dec msm tgt e bytes) :
    (journal_seek dec msm tgt e bytes).ok = false ∧
    (journal_seek dec msm tgt e bytes).errstr = some eofErr := by
  induction h with
  | here e bytes hrf hlt =>
    rw [journal_seek_eof hrf]
    exact ⟨rfl, rfl⟩
  | step e bytes d rest hrf hlt hrec ih =>
    rw [journal_seek_frame hrf,
      if_neg (by simp [ts_geb_false_of_lt hlt])]
    exact ih

/-- C3: the journal replay-seek loop returns success exactly when the
accumulated elapsed time reaches the resume-point target exactly; when an
accumulated check strictly exceeds the target it fails with errstr
"invalid journal file, unable to restart", and when the data runs out
before the target it fails with errstr
"unexpected EOF reading journal file". -/
theorem claim_C3_replay_seek (dec : List Nat → Option (Option TimeSpec))
    (msm : Nat) (tgt e : TimeSpec) (bytes : List Nat) :
    ((journal_seek dec msm tgt e bytes).ok = true ↔
      SeekHits dec msm tgt e bytes) ∧
    (SeekOvershoots dec msm tgt e bytes →
      (journal_seek dec msm tgt e bytes).ok = false ∧
      (journal_seek dec msm tgt e bytes).errstr = some invalidErr) ∧
    (SeekEofBefore dec msm tgt e bytes →
      (journal_seek dec msm tgt e bytes).ok = false ∧
      (journal_seek dec msm tgt e bytes).errstr = some eofErr) :=
  ⟨⟨fun h => seek_ok_hits dec msm tgt bytes.length bytes le_rfl e h, hits_seek_ok⟩,
   overshoot_seek, eof_seek⟩

/-- C3 witness: a one-frame journal that hits the target exactly succeeds,
one whose delay overshoots a zero target fails as invalid, and an empty
journal fails with the EOF error. -/
theorem claim_C3_witness :
    (journal_seek (fun _ => some (some ⟨0, 1⟩)) 100 ⟨0, 1⟩ ⟨0, 0⟩
      [0, 0, 0, 0]).ok = true ∧
    ((journal_seek (fun _ => some (some ⟨0, 1⟩)) 100 ⟨0, 0⟩ ⟨0, 0⟩
        [0, 0, 0, 0]).ok = false ∧
      (journal_seek (fun _ => some (some ⟨0, 1⟩)) 100 ⟨0, 0⟩ ⟨0, 0⟩
        [0, 0, 0, 0]).errstr = some invalidErr) ∧
    ((journal_seek (fun _ => some (some ⟨0, 1⟩)) 100 ⟨0, 1⟩ ⟨0, 0⟩ []).ok = false ∧
      (journal_seek (fun _ => some (some ⟨0, 1⟩)) 100 ⟨0, 1⟩ ⟨0, 0⟩ []).errstr =
        some eofErr) :=
  ⟨(claim_C3_replay_seek (fun _ => some (some ⟨0, 1⟩)) 100 ⟨0, 1⟩ ⟨0, 0⟩
      [0, 0, 0, 0]).1.mpr
      (SeekHits.hit ⟨0, 0⟩ [0, 0, 0, 0] (some ⟨0, 1⟩) [] rfl (by decide)),
   (claim_C3_replay_seek (fun _ => some (some ⟨0, 1⟩)) 100 ⟨0, 0⟩ ⟨0, 0⟩
      [0, 0, 0, 0]).2.1
      (SeekOvershoots.here ⟨0, 0⟩ [0, 0, 0, 0] (some ⟨0, 1⟩) [] rfl (by decide)),
   (claim_C3_replay_seek (fun _ => some (some ⟨0, 1⟩)) 100 ⟨0, 1⟩ ⟨0, 0⟩ []).2.2
      (SeekEofBefore.here ⟨0, 0⟩ [] rfl (by decide))⟩

end LogSrvd
